import Mathlib

/-!
Verification of `target_postgres/json_schema.py`.

The Python module is shallowly embedded over a `PyVal` type of Python values.
Fallible operations return `Except PyErr`; `PyErr` models the Python exception
classes that the module raises or catches.  Recursion in `_helper_simplify` is
bounded by an explicit fuel parameter modelling Python's recursion limit
(`RecursionError` is the fuel-exhaustion signal, exactly the exception caught
by the `$ref` branch of the source).
-/

/-- A Python value, restricted to the JSON-ish universe this module works on.
Dict keys are strings (the module only ever uses string keys). -/
inductive PyVal where
  | none
  | bool (b : Bool)
  | int (n : Int)
  | str (s : String)
  | list (xs : List PyVal)
  | dict (entries : List (String × PyVal))

/-- Python exceptions relevant to `json_schema.py`: the module's own
`JSONSchemaError`, the external validator's `SchemaError`, `RecursionError`
(stack exhaustion), and the built-in dynamic-typing errors. -/
inductive PyErr where
  | jsonSchemaError (msg : String)
  | schemaError (msg : String)
  | recursionError
  | typeError (msg : String)
  | attributeError (msg : String)
  | keyError (msg : String)
  | indexError (msg : String)
  | valueError (msg : String)

/-- First-match lookup in an association list (Python dict read). -/
def lookupKey : List (String × PyVal) → String → Option PyVal
  | [], _ => Option.none
  | (k, v) :: rest, key => if k = key then Option.some v else lookupKey rest key

/-- Python dict assignment `d[k] = v`: replace the existing entry in place or
append a new one (Python dicts preserve insertion order). -/
def setKey : List (String × PyVal) → String → PyVal → List (String × PyVal)
  | [], key, v => [(key, v)]
  | (k, w) :: rest, key, v =>
      if k = key then (key, v) :: rest else (k, w) :: setKey rest key v

/-- Python truthiness (`bool(v)`). -/
def pyTruthy : PyVal → Bool
  | PyVal.none => false
  | PyVal.bool b => b
  | PyVal.int n => n != 0
  | PyVal.str s => s != ""
  | PyVal.list xs => !xs.isEmpty
  | PyVal.dict es => !es.isEmpty

/-- `isinstance(v, dict)`. -/
def pyIsDict : PyVal → Bool
  | PyVal.dict _ => true
  | _ => false

/-- `isinstance(v, str)`. -/
def pyIsStr : PyVal → Bool
  | PyVal.str _ => true
  | _ => false

/-- The bare Python type name of a value. -/
def pyShortTypeName : PyVal → String
  | PyVal.none => "NoneType"
  | PyVal.bool _ => "bool"
  | PyVal.int _ => "int"
  | PyVal.str _ => "str"
  | PyVal.list _ => "list"
  | PyVal.dict _ => "dict"

/-- `str(type(v))`, as interpolated by `'{}'.format(type(v))`. -/
def pyTypeName (v : PyVal) : String :=
  "<class \x27" ++ pyShortTypeName v ++ "\x27>"

/-- Python `==` against a string literal: strings compare by value, every
other type compares unequal to a `str`. -/
def pyEqStr (v : PyVal) (s : String) : Bool :=
  match v with
  | PyVal.str t => t = s
  | _ => false

/-- Bounded rendering of a value, approximating Python `repr`.  The fuel only
limits nesting depth; the module never renders values deeper than the
documents it is given. -/
def pyReprFuel : Nat → PyVal → String
  | 0, _ => "..."
  | Nat.succ n, v =>
      match v with
      | PyVal.none => "None"
      | PyVal.bool true => "True"
      | PyVal.bool false => "False"
      | PyVal.int i => toString i
      | PyVal.str s => "\x27" ++ s ++ "\x27"
      | PyVal.list xs =>
          "[" ++ String.intercalate ", " (xs.map (pyReprFuel n)) ++ "]"
      | PyVal.dict es =>
          "\x7b" ++
            String.intercalate ", "
              (es.map (fun p => "\x27" ++ p.1 ++ "\x27: " ++ pyReprFuel n p.2)) ++
          "\x7d"

/-- Python `repr(v)` (depth-bounded). -/
def pyRepr (v : PyVal) : String := pyReprFuel 1000 v

/-- Python `str(v)` as used by `'{}'.format(v)`. -/
def pyStrOf (v : PyVal) : String :=
  match v with
  | PyVal.str s => s
  | _ => pyRepr v

/-- Whether the character-list `p` is an initial segment of `s`. -/
def charsLeadB : List Char → List Char → Bool
  | [], _ => true
  | _ :: _, [] => false
  | a :: as, b :: bs => a = b && charsLeadB as bs

/-- Whether the character-list `p` occurs inside `s`. -/
def charsInsideB (p : List Char) : List Char → Bool
  | [] => charsLeadB p []
  | c :: cs => charsLeadB p (c :: cs) || charsInsideB p cs

/-- Python substring test `p in s` for strings. -/
def strInsideB (p s : String) : Bool := charsInsideB p.data s.data

/-- Python `s.startswith(p)` (used to model `re.match(r'^#/.*', s)`). -/
def strLeadsB (p s : String) : Bool := charsLeadB p.data s.data

/-- Python membership `needle in container` for a string needle:
dict key test, list membership, substring test; `TypeError` otherwise. -/
def pyContains (container : PyVal) (needle : String) : Except PyErr Bool :=
  match container with
  | PyVal.dict es => Except.ok (lookupKey es needle).isSome
  | PyVal.list xs => Except.ok (xs.any (fun v => pyEqStr v needle))
  | PyVal.str s => Except.ok (strInsideB needle s)
  | v => Except.error (PyErr.typeError
      ("argument of type " ++ pyShortTypeName v ++ " is not iterable"))

/-- Python subscript `container[key]` for a string key. -/
def pyGetItem (container : PyVal) (key : String) : Except PyErr PyVal :=
  match container with
  | PyVal.dict es =>
      match lookupKey es key with
      | Option.some v => Except.ok v
      | Option.none => Except.error (PyErr.keyError ("\x27" ++ key ++ "\x27"))
  | PyVal.list _ => Except.error (PyErr.typeError
      "list indices must be integers or slices, not str")
  | PyVal.str _ => Except.error (PyErr.typeError "string indices must be integers")
  | v => Except.error (PyErr.typeError
      (pyShortTypeName v ++ " object is not subscriptable"))

/-- Python `container.get(key, default)` (dict method). -/
def pyGet (container : PyVal) (key : String) (dflt : PyVal) : Except PyErr PyVal :=
  match container with
  | PyVal.dict es => Except.ok ((lookupKey es key).getD dflt)
  | v => Except.error (PyErr.attributeError
      (pyShortTypeName v ++ " object has no attribute get"))

/-- Python `container.items()` (dict method). -/
def pyDictItems (container : PyVal) : Except PyErr (List (String × PyVal)) :=
  match container with
  | PyVal.dict es => Except.ok es
  | v => Except.error (PyErr.attributeError
      (pyShortTypeName v ++ " object has no attribute items"))

/-- Python item assignment `container[key] = v`. -/
def pySetItem (container : PyVal) (key : String) (v : PyVal) : Except PyErr PyVal :=
  match container with
  | PyVal.dict es => Except.ok (PyVal.dict (setKey es key v))
  | w => Except.error (PyErr.typeError
      (pyShortTypeName w ++ " object does not support item assignment"))

/-- Python subscript `container[i]` for an integer index. -/
def pyIndex (v : PyVal) (i : Nat) : Except PyErr PyVal :=
  match v with
  | PyVal.list xs =>
      match xs.get? i with
      | Option.some x => Except.ok x
      | Option.none => Except.error (PyErr.indexError "list index out of range")
  | PyVal.str s =>
      match s.data.get? i with
      | Option.some c => Except.ok (PyVal.str (String.mk [c]))
      | Option.none => Except.error (PyErr.indexError "string index out of range")
  | PyVal.dict _ => Except.error (PyErr.keyError (toString i))
  | w => Except.error (PyErr.typeError
      (pyShortTypeName w ++ " object is not subscriptable"))

/-- Python `len(v)`. -/
def pyLen : PyVal → Except PyErr Nat
  | PyVal.str s => Except.ok s.length
  | PyVal.list xs => Except.ok xs.length
  | PyVal.dict es => Except.ok es.length
  | v => Except.error (PyErr.typeError
      ("object of type " ++ pyShortTypeName v ++ " has no len()"))

/-- Position of the first element of `xs` equal (Python `==`) to the string
`needle`. -/
def listIdxOf (needle : String) : List PyVal → Option Nat
  | [] => Option.none
  | x :: rest =>
      if pyEqStr x needle then Option.some 0
      else (listIdxOf needle rest).map Nat.succ

/-- Python `v.index(needle)` for a string needle (list method). -/
def pyListIndex (v : PyVal) (needle : String) : Except PyErr Nat :=
  match v with
  | PyVal.list xs =>
      match listIdxOf needle xs with
      | Option.some i => Except.ok i
      | Option.none => Except.error (PyErr.valueError
          ("\x27" ++ needle ++ "\x27 is not in list"))
  | w => Except.error (PyErr.attributeError
      (pyShortTypeName w ++ " object has no attribute index"))

/-- Python `a + b` as used by `make_nullable` (list concatenation). -/
def pyAdd (a b : PyVal) : Except PyErr PyVal :=
  match a, b with
  | PyVal.list xs, PyVal.list ys => Except.ok (PyVal.list (xs ++ ys))
  | x, _ => Except.error (PyErr.typeError
      ("unsupported operand type(s) for +: " ++ pyShortTypeName x))

/-- Reading an optional key of a dict value (specification-side helper used to
state theorems; `Option.none` both for a missing key and a non-dict). -/
def dictGet (v : PyVal) (key : String) : Option PyVal :=
  match v with
  | PyVal.dict es => lookupKey es key
  | _ => Option.none

/-- `get_type`: extract the simplified `type` value of a schema dict;
absent/falsy becomes `['object']`, a string is wrapped into a one-element
list, everything else is returned unchanged. -/
def get_type (schema : PyVal) : Except PyErr PyVal := do
  let t ← pyGet schema "type" PyVal.none
  if pyTruthy t then
    match t with
    | PyVal.str s => pure (PyVal.list [PyVal.str s])
    | _ => pure t
  else
    pure (PyVal.list [PyVal.str "object"])

/-- `_get_ref`: walk the root document along the split `$ref` path. -/
def get_ref_aux : List String → PyVal → Except PyErr PyVal
  | [], schema => Except.ok schema
  | p :: rest, schema => do
      let c ← pyContains schema p
      if c then do
        let v ← pyGetItem schema p
        get_ref_aux rest v
      else
        Except.error (PyErr.jsonSchemaError
          ("`$ref` \"" ++ p ++ "\" not found in provided JSON Schema"))

/-- Split on `/` (Python `re.split('/', s)`). -/
def splitSlashAux : List Char → List Char → List String
  | [], acc => [String.mk acc.reverse]
  | c :: cs, acc =>
      if c = '/' then String.mk acc.reverse :: splitSlashAux cs []
      else splitSlashAux cs (c :: acc)

/-- Split a string on `/`; the empty string yields `[""]` as in Python. -/
def splitSlash (s : String) : List String := splitSlashAux s.data []

/-- `get_ref`: only absolute same-document refs `#/...` are allowed; the
leading `#/` is stripped, the remainder split on `/` and walked from the
root.  A non-string ref makes `re.match` raise a `TypeError`. -/
def get_ref (schema ref : PyVal) : Except PyErr PyVal :=
  match ref with
  | PyVal.str s =>
      if strLeadsB "#/" s then
        get_ref_aux (splitSlash (String.mk (s.data.drop 2))) schema
      else
        Except.error (PyErr.jsonSchemaError
          ("Invalid format for `$ref`: \"" ++ s ++ "\""))
  | _ => Except.error (PyErr.typeError
      "expected string or bytes-like object")

/-- `is_ref`: the node carries a `$ref` key. -/
def is_ref (schema : PyVal) : Except PyErr Bool :=
  pyContains schema "$ref"

/-- `is_object`: not a ref, and `object` in its type set, or it has a
`properties` key, or it is empty/falsy. -/
def is_object (schema : PyVal) : Except PyErr Bool := do
  let r ← is_ref schema
  if r then pure false
  else do
    let t ← get_type schema
    let o ← pyContains t "object"
    if o then pure true
    else do
      let p ← pyContains schema "properties"
      if p then pure true
      else pure (!pyTruthy schema)

/-- `is_iterable`: not a ref, `array` in its type set, and an `items` key
present. -/
def is_iterable (schema : PyVal) : Except PyErr Bool := do
  let r ← is_ref schema
  if r then pure false
  else do
    let t ← get_type schema
    let a ← pyContains t "array"
    if a then pyContains schema "items"
    else pure false

/-- `is_nullable`: `null` in the type set. -/
def is_nullable (schema : PyVal) : Except PyErr Bool := do
  let t ← get_type schema
  pyContains t "null"

/-- `make_nullable`: return the schema with `null` appended to its type list
if not already nullable (`deepcopy` is the identity in this pure model). -/
def make_nullable (schema : PyVal) : Except PyErr PyVal := do
  let t ← get_type schema
  let hn ← pyContains t "null"
  if hn then pure schema
  else do
    let t2 ← pyAdd t (PyVal.list [PyVal.str "null"])
    pySetItem schema "type" t2

/-- The error message of the `$ref`-cycle handler in `_helper_simplify`. -/
def recursiveRefMsg (tgt : PyVal) : String :=
  "`$ref` path \"" ++ pyStrOf tgt ++ "\" is recursive"

/-- Simplify the values of a `properties` dict with the supplied recursive
simplifier, left to right, propagating the first error (the `for` loop of the
object branch of `_helper_simplify`). -/
def simplifyEntries (f : PyVal → Except PyErr PyVal) :
    List (String × PyVal) → Except PyErr (List (String × PyVal))
  | [] => Except.ok []
  | (k, v) :: rest => do
      let sv ← f v
      let srest ← simplifyEntries f rest
      Except.ok ((k, sv) :: srest)

/-- The `format`/`default` copying tail of `_helper_simplify`: both keys are
copied verbatim from the original pre-simplification node onto the result
whenever present. -/
def copy_format_default (child ret : PyVal) : Except PyErr PyVal := do
  let hf ← pyContains child "format"
  let ret1 ← if hf then do
      let f ← pyGet child "format" PyVal.none
      pySetItem ret "format" f
    else pure ret
  let hd ← pyContains child "default"
  if hd then do
    let d ← pyGet child "default" PyVal.none
    pySetItem ret1 "default" d
  else pure ret1

/-- The `$ref` branch of `_helper_simplify`: the `try` block resolves the ref
and recurses; the `except RecursionError` handler re-resolves the ref and
raises a `JSONSchemaError` formatted with the target.  `recurse` is the
recursive simplifier at the remaining recursion budget. -/
def ref_branch (root : PyVal) (recurse : PyVal → Except PyErr PyVal)
    (child : PyVal) : Except PyErr PyVal :=
  match (do
      let rf ← pyGetItem child "$ref"
      let tgt ← get_ref root rf
      recurse tgt : Except PyErr PyVal) with
  | Except.error PyErr.recursionError => do
      let rf ← pyGetItem child "$ref"
      let tgt ← get_ref root rf
      Except.error (PyErr.jsonSchemaError (recursiveRefMsg tgt))
  | out => out

/-- `_helper_simplify`.  The fuel models Python's recursion limit: exhausting
it raises `RecursionError`, which only the `$ref` branch catches (converting
it to a `JSONSchemaError` formatted with the re-resolved target, exactly as
the source's `except RecursionError` handler does). -/
def helper_simplify (root : PyVal) : Nat → PyVal → Except PyErr PyVal
  | 0, _ => Except.error PyErr.recursionError
  | Nat.succ fuel, child =>
      let base : Except PyErr PyVal :=
        match is_ref child with
        | Except.error e => Except.error e
        | Except.ok true => ref_branch root (helper_simplify root fuel) child
        | Except.ok false =>
            match is_object child with
            | Except.error e => Except.error e
            | Except.ok true => do
                let props ← pyGet child "properties" (PyVal.dict [])
                let entries ← pyDictItems props
                let simplified ← simplifyEntries (helper_simplify root fuel) entries
                let t ← get_type child
                pure (PyVal.dict [("type", t), ("properties", PyVal.dict simplified)])
            | Except.ok false =>
                match is_iterable child with
                | Except.error e => Except.error e
                | Except.ok true => do
                    let t ← get_type child
                    let items ← pyGet child "items" (PyVal.dict [])
                    let si ← helper_simplify root fuel items
                    pure (PyVal.dict [("type", t), ("items", si)])
                | Except.ok false => do
                    let t ← get_type child
                    pure (PyVal.dict [("type", t)])
      base >>= copy_format_default child

/-- Python's default recursion limit, the initial fuel of a `simplify` run. -/
def sysRecursionLimit : Nat := 1000

/-- `simplify`: simplify a schema against itself as root. -/
def simplify (schema : PyVal) : Except PyErr PyVal :=
  helper_simplify schema sysRecursionLimit schema

/-- The Draft-4 URI accepted by `_valid_schema_version`. -/
def draft4URI : String := "http://json-schema.org/draft-04/schema#"

/-- `_valid_schema_version`: `'$schema' not in schema or schema['$schema'] ==
draft4URI`, with Python's short-circuit `or`. -/
def valid_schema_version (schema : PyVal) : Except PyErr Bool := do
  let c ← pyContains schema "$schema"
  if c then do
    let v ← pyGetItem schema "$schema"
    pure (pyEqStr v draft4URI)
  else pure true

/-- Python `str(exception)` for the modelled exceptions. -/
def pyErrStr : PyErr → String
  | PyErr.jsonSchemaError m => m
  | PyErr.schemaError m => m
  | PyErr.recursionError => "maximum recursion depth exceeded"
  | PyErr.typeError m => m
  | PyErr.attributeError m => m
  | PyErr.keyError m => m
  | PyErr.indexError m => m
  | PyErr.valueError m => m

/-- `_unexpected_validation_error`: if no errors were recorded yet, report the
unexpected exception generically; otherwise return the existing errors
unchanged (the exception is dropped). -/
def unexpected_validation_error (errors : List String) (exc : PyErr) : List String :=
  if errors.isEmpty then
    ["Unexpected exception encountered: " ++ pyErrStr exc]
  else errors

/-- The step-1 message of `validation_errors` for a non-dict input. -/
def notDictMsg (schema : PyVal) : String :=
  "Parameter `schema` is not a dict, instead found: " ++ pyTypeName schema

/-- The step-2 message of `validation_errors` (the source formats the literal
string `'$schema'` into it). -/
def versionMsg : String := "Schema version must be Draft 4. Found: $schema"

/-- `validation_errors`, parameterised by the external Draft-4 meta-schema
checker (`jsonschema.Draft4Validator.check_schema`), an opaque collaborator.
Each of the three guarded steps mirrors the source's `try`/`except` nesting:
a `SchemaError` in step 3 and a `JSONSchemaError` in step 4 are appended as
their string representation; any other exception goes through
`unexpected_validation_error`.  The result is `Except`-valued so that "the
facade never raises" is a provable statement rather than a modelling
artifact. -/
def validation_errors (check_schema : PyVal → Except PyErr Unit)
    (schema : PyVal) : Except PyErr (List String) :=
  let errors0 := if pyIsDict schema then [] else [notDictMsg schema]
  let errors1 :=
    match valid_schema_version schema with
    | Except.ok true => errors0
    | Except.ok false => errors0 ++ [versionMsg]
    | Except.error exc => unexpected_validation_error errors0 exc
  let errors2 :=
    match check_schema schema with
    | Except.ok _ => errors1
    | Except.error (PyErr.schemaError m) => errors1 ++ [m]
    | Except.error exc => unexpected_validation_error errors1 exc
  let errors3 :=
    match simplify schema with
    | Except.ok _ => errors2
    | Except.error (PyErr.jsonSchemaError m) => errors2 ++ [m]
    | Except.error exc => unexpected_validation_error errors2 exc
  Except.ok errors3

/-- Modelled from the spec: the external Draft-4 meta-schema checker
(`jsonschema.Draft4Validator.check_schema`), which is not part of this
repository.  Per the spec it is a black box that "raises SchemaError-like on
structural invalidity"; this instantiation rejects non-dict documents, which
is how the real Draft-4 meta-schema (whose root asserts `type: object`)
behaves on them, and accepts everything else. -/
def check_schema_stub (schema : PyVal) : Except PyErr Unit :=
  if pyIsDict schema then Except.ok ()
  else Except.error (PyErr.schemaError
    (pyStrOf schema ++ " is not of type \x27object\x27"))

/-- `from_sql`: map a SQL column type string and nullability back to a
canonical JSON-schema fragment. -/
def from_sql (sql_type : String) (nullable : Bool) : Except PyErr PyVal :=
  let build := fun (json_type : String) (fmt : Option String) =>
    let types := if nullable then [PyVal.str json_type, PyVal.str "null"]
                 else [PyVal.str json_type]
    match fmt with
    | Option.some f => PyVal.dict [("type", PyVal.list types), ("format", PyVal.str f)]
    | Option.none => PyVal.dict [("type", PyVal.list types)]
  if sql_type = "timestamp with time zone" then
    Except.ok (build "string" (Option.some "date-time"))
  else if sql_type = "bigint" then Except.ok (build "integer" Option.none)
  else if sql_type = "double precision" then Except.ok (build "number" Option.none)
  else if sql_type = "boolean" then Except.ok (build "boolean" Option.none)
  else if sql_type = "text" then Except.ok (build "string" Option.none)
  else Except.error (PyErr.jsonSchemaError
    ("Unsupported type `" ++ sql_type ++ "` in existing target table"))

/-- The base-mapping tail of `to_sql`, given the pair `p` of the computed
not-null flag and working type: the `format`/`date-time` test, the base type
table, and the ` NOT NULL` suffix. -/
def to_sql_tail (schema : PyVal) (p : Bool × PyVal) : Except PyErr String := do
  let hf ← pyContains schema "format"
  let fdt ← if hf then do
      let f ← pyGetItem schema "format"
      pure (pyEqStr f "date-time")
    else pure false
  let sql :=
    if fdt && pyEqStr p.2 "string" then "timestamp with time zone"
    else if pyEqStr p.2 "boolean" then "boolean"
    else if pyEqStr p.2 "integer" then "bigint"
    else if pyEqStr p.2 "number" then "double precision"
    else "text"
  pure (if p.1 then sql ++ " NOT NULL" else sql)

/-- `to_sql`: map a (canonical) node to a SQL column type string.  The three
`ln` tests mirror the source exactly: a separate `if ln == 1`, then
`if ln == 2 and NULL in _type: ... elif ln > 2: raise`. -/
def to_sql (schema : PyVal) : Except PyErr String := do
  let t0 ← get_type schema
  let ln ← pyLen t0
  let t1 ← if ln = 1 then pyIndex t0 0 else pure t0
  let p ←
    if ln = 2 then do
      let hn ← pyContains t1 "null"
      if hn then do
        let i ← pyListIndex t1 "null"
        let t2 ← if i = 0 then pyIndex t1 1 else pyIndex t1 0
        pure (false, t2)
      else pure (true, t1)
    else if 2 < ln then
      Except.error (PyErr.jsonSchemaError "Multiple types per column not supported")
    else pure (true, t1)
  to_sql_tail schema p

/-- `_shorthand_mapping`: the fixed one-character code table. -/
def shorthand_mapping : List (String × String) :=
  [("null", ""), ("string", "s"), ("number", "f"), ("integer", "i"), ("boolean", "b")]

/-- First-match lookup in the shorthand table. -/
def lookupShorthand : List (String × String) → String → Option String
  | [], _ => Option.none
  | (k, v) :: rest, key =>
      if k = key then Option.some v else lookupShorthand rest key

/-- Python `str(list(_shorthand_mapping.keys()))`, interpolated into the
shorthand error message. -/
def shorthandKeysRepr : String :=
  "[\x27null\x27, \x27string\x27, \x27number\x27, \x27integer\x27, \x27boolean\x27]"

/-- The `_type_shorthand` code for one type name, or the `JSONSchemaError` the
source raises for names outside the table. -/
def shorthandOfStr (s : String) : Except PyErr String :=
  match lookupShorthand shorthand_mapping s with
  | Option.some c => Except.ok c
  | Option.none => Except.error (PyErr.jsonSchemaError
      ("Shorthand not available for type " ++ s ++ ". Expected one of " ++
        shorthandKeysRepr))

/-- Code-point lexicographic `<` on character lists, matching Python's string
comparison. -/
def charsLtB : List Char → List Char → Bool
  | [], [] => false
  | [], _ :: _ => true
  | _ :: _, [] => false
  | a :: as, b :: bs =>
      if a.toNat < b.toNat then true
      else if b.toNat < a.toNat then false
      else charsLtB as bs

/-- Python `s < t` on strings. -/
def strLtB (s t : String) : Bool := charsLtB s.data t.data

/-- Stable insertion of a string into a sorted list. -/
def insertStr (s : String) : List String → List String
  | [] => [s]
  | t :: rest => if strLtB s t then s :: t :: rest else t :: insertStr s rest

/-- Insertion sort on strings, modelling Python `sorted` on a string list. -/
def sortStrs : List String → List String
  | [] => []
  | s :: rest => insertStr s (sortStrs rest)

/-- Extract the strings of an all-string value list, `Option.none` if some
element is not a string. -/
def strElems : List PyVal → Option (List String)
  | [] => Option.some []
  | PyVal.str s :: rest => (strElems rest).map (fun ss => s :: ss)
  | _ :: _ => Option.none

/-- Python `sorted(type_s)` restricted to lists of strings, the only shape the
type lists of this module take (`sorted` on other element mixes would raise
`TypeError` as soon as it compares two non-comparable members). -/
def pySortedStrs (xs : List PyVal) : Except PyErr (List String) :=
  match strElems xs with
  | Option.some ss => Except.ok (sortStrs ss)
  | Option.none => Except.error (PyErr.typeError
      "\x27<\x27 not supported between instances")

/-- Concatenate the shorthand codes of the (sorted) type names in order,
propagating the first lookup failure, as the `for` loop of
`_type_shorthand` does. -/
def concatShorthands : List String → Except PyErr String
  | [] => Except.ok ""
  | s :: rest => do
      let c ← shorthandOfStr s
      let r ← concatShorthands rest
      Except.ok (c ++ r)

/-- `_type_shorthand`: a list is sorted and its members' codes concatenated; a
string is looked up in the table; other hashable scalars miss the table and
raise `JSONSchemaError`; an unhashable value raises `TypeError` from the
membership test. -/
def type_shorthand (t : PyVal) : Except PyErr String :=
  match t with
  | PyVal.list xs => do
      let ss ← pySortedStrs xs
      concatShorthands ss
  | PyVal.str s => shorthandOfStr s
  | PyVal.dict _ => Except.error (PyErr.typeError "unhashable type: \x27dict\x27")
  | v => Except.error (PyErr.jsonSchemaError
      ("Shorthand not available for type " ++ pyStrOf v ++ ". Expected one of " ++
        shorthandKeysRepr))

/-- `sql_shorthand`: the shorthand of the node's type set. -/
def sql_shorthand (schema : PyVal) : Except PyErr String := do
  let t ← get_type schema
  type_shorthand t

/-- The closed SQL type vocabulary of the codec. -/
def supported_sql_types : List String :=
  ["bigint", "double precision", "boolean", "text", "timestamp with time zone"]

/-- The `type` key of a schema dict conforms to the data model: absent, falsy,
a single type-name string, or a list of type names. -/
def typeFieldOk (es : List (String × PyVal)) : Bool :=
  match lookupKey es "type" with
  | Option.none => true
  | Option.some v => !pyTruthy v || pyIsStr v || (match v with
      | PyVal.list _ => true
      | _ => false)

/-- `SubVal v w`: `v` occurs inside `w` (reflexively, through dict values and
list elements).  Every node `_helper_simplify` visits is a `SubVal` of the
root document. -/
inductive SubVal : PyVal → PyVal → Prop
  | refl (v : PyVal) : SubVal v v
  | inDict {v w : PyVal} {k : String} {es : List (String × PyVal)} :
      (k, w) ∈ es → SubVal v w → SubVal v (PyVal.dict es)
  | inList {v w : PyVal} {xs : List PyVal} :
      w ∈ xs → SubVal v w → SubVal v (PyVal.list xs)

/-- A canonical node: a dict with no `$ref` key, an explicit list under
`type`, and canonical children under `properties` and `items` (the shape the
spec calls "canonical schema"). -/
inductive Canonical : PyVal → Prop
  | mk (es : List (String × PyVal)) :
      lookupKey es "$ref" = Option.none →
      (∃ ts, lookupKey es "type" = Option.some (PyVal.list ts)) →
      (∀ ps, lookupKey es "properties" = Option.some (PyVal.dict ps) →
        ∀ p ∈ ps, Canonical p.2) →
      (∀ it, lookupKey es "items" = Option.some it → Canonical it) →
      Canonical (PyVal.dict es)

/-- One step of `$ref` expansion: if the node is a ref, the target it resolves
to against the root, otherwise `Option.none`. -/
def refNext (root v : PyVal) : Option PyVal :=
  match is_ref v with
  | Except.ok true =>
      match pyGetItem v "$ref" with
      | Except.ok r =>
          match get_ref root r with
          | Except.ok tgt => Option.some tgt
          | Except.error _ => Option.none
      | Except.error _ => Option.none
  | _ => Option.none

/-- Iterated `$ref` expansion from a node. -/
def refChain (root : PyVal) : Nat → PyVal → Option PyVal
  | 0, v => Option.some v
  | Nat.succ n, v =>
      match refNext root v with
      | Option.some w => refChain root n w
      | Option.none => Option.none

/-- A document whose `$ref` expansion from the root never leaves the ref
branch: every iterate is again a resolvable ref.  Direct and indirect cycles
reachable from the root satisfy this. -/
def CyclicFromRoot (root : PyVal) : Prop :=
  ∀ n, (refChain root n root).isSome

/-- Counterexample document for C2: it contains a node that refs itself
(`#/definitions/a`), but that node is unreachable from the root (it sits
under `definitions`, which is not a `properties` entry), so `simplify`
succeeds. -/
def docUnreachableCycle : PyVal :=
  PyVal.dict [("definitions",
    PyVal.dict [("a", PyVal.dict [("$ref", PyVal.str "#/definitions/a")])])]

/-- The self-referential node inside `docUnreachableCycle`. -/
def selfRefNode : PyVal := PyVal.dict [("$ref", PyVal.str "#/definitions/a")]

/-- Witness document for C2: the root itself is a ref to a node that refs
itself, so simplification follows the cycle. -/
def docRootCycle : PyVal :=
  PyVal.dict [("$ref", PyVal.str "#/x"),
              ("x", PyVal.dict [("$ref", PyVal.str "#/x")])]

/-- Counterexample document for C6: the root is a ref carrying no `format` of
its own; the resolved target has `format: date-time`. -/
def docRefFormat : PyVal :=
  PyVal.dict [("$ref", PyVal.str "#/x"),
              ("x", PyVal.dict [("type", PyVal.str "string"),
                                ("format", PyVal.str "date-time")])]

/-- The table code of a type name with a junk default, used to state what the
shorthand concatenation produces. -/
def codeOf (s : String) : String :=
  (lookupShorthand shorthand_mapping s).getD ""

/-- Concatenation of a list of strings in order. -/
def strJoin : List String → String
  | [] => ""
  | s :: rest => s ++ strJoin rest

/-! ## Theorems -/

@[simp] theorem exBind_ok {E A B : Type} (a : A) (f : A → Except E B) :
    (Except.ok a : Except E A) >>= f = f a := rfl

@[simp] theorem exBind_error {E A B : Type} (e : E) (f : A → Except E B) :
    (Except.error e : Except E A) >>= f = Except.error e := rfl

@[simp] theorem exPure_def {E A : Type} (a : A) :
    (pure a : Except E A) = Except.ok a := rfl

theorem bindOkInv {E A B : Type} {x : Except E A} {f : A → Except E B} {b : B}
    (h : x >>= f = Except.ok b) : ∃ a, x = Except.ok a ∧ f a = Except.ok b := by
  cases x with
  | error e => simp at h
  | ok a => exact ⟨a, rfl, by simpa using h⟩

@[simp] theorem lookupKey_nil (key : String) : lookupKey [] key = Option.none := rfl

@[simp] theorem lookupKey_cons (k : String) (v : PyVal)
    (rest : List (String × PyVal)) (key : String) :
    lookupKey ((k, v) :: rest) key =
      if k = key then Option.some v else lookupKey rest key := rfl

/-- C1: for every SQL type `S` in the supported vocabulary and every boolean
`nullable`, `to_sql (from_sql S nullable)` equals `S` with `" NOT NULL"`
appended exactly when `nullable` is false. -/
theorem claim_C1_sql_roundtrip (S : String) (nullable : Bool)
    (hS : S ∈ supported_sql_types) :
    (do let n ← from_sql S nullable; to_sql n) =
      Except.ok (S ++ if nullable then "" else " NOT NULL") := by
  have hS' : S = "bigint" ∨ S = "double precision" ∨ S = "boolean" ∨
      S = "text" ∨ S = "timestamp with time zone" := by
    simpa [supported_sql_types] using hS
  rcases hS' with h | h | h | h | h <;> subst h <;> cases nullable <;> rfl

theorem claim_C1_sql_roundtrip_witness :
    "bigint" ∈ supported_sql_types ∧
      (do let n ← from_sql "bigint" true; to_sql n) =
        Except.ok ("bigint" ++ if true then "" else " NOT NULL") :=
  ⟨by decide, claim_C1_sql_roundtrip "bigint" true (by decide)⟩

theorem refNext_some_inv {root v w : PyVal} (h : refNext root v = Option.some w) :
    ∃ r, is_ref v = Except.ok true ∧ pyGetItem v "$ref" = Except.ok r ∧
      get_ref root r = Except.ok w := by
  cases hir : is_ref v with
  | error e => simp [refNext, hir] at h
  | ok b =>
    cases b with
    | false => simp [refNext, hir] at h
    | true =>
      cases hgi : pyGetItem v "$ref" with
      | error e => simp [refNext, hir, hgi] at h
      | ok r =>
        cases hgr : get_ref root r with
        | error e => simp [refNext, hir, hgi, hgr] at h
        | ok tgt =>
          simp [refNext, hir, hgi, hgr] at h
          exact ⟨r, rfl, rfl, by rw [hgr, h]⟩

theorem cyclic_helper (root : PyVal) :
    ∀ fuel v, (∀ n, (refChain root n v).isSome) →
      (fuel = 0 ∧ helper_simplify root fuel v = Except.error PyErr.recursionError) ∨
      (∃ m, helper_simplify root fuel v = Except.error (PyErr.jsonSchemaError m)) := by
  intro fuel
  induction fuel with
  | zero => intro v _; exact Or.inl ⟨rfl, rfl⟩
  | succ n ih =>
    intro v hchain
    have h1 := hchain 1
    have hw : ∃ w, refNext root v = Option.some w := by
      cases hrn : refNext root v with
      | some w => exact ⟨w, rfl⟩
      | none => rw [show refChain root 1 v = Option.none by simp [refChain, hrn]] at h1; simp at h1
    obtain ⟨w, hw⟩ := hw
    obtain ⟨r, hir, hgi, hgr⟩ := refNext_some_inv hw
    have hshift : ∀ k, (refChain root k w).isSome := by
      intro k
      have := hchain (k + 1)
      rw [show refChain root (k + 1) v = refChain root k w by simp [refChain, hw]] at this
      exact this
    rcases ih w hshift with ⟨hn0, hrec⟩ | ⟨m, hjson⟩
    · subst hn0
      refine Or.inr ⟨recursiveRefMsg w, ?_⟩
      simp [helper_simplify, ref_branch, hir, hgi, hgr, hrec]
    · refine Or.inr ⟨m, ?_⟩
      simp [helper_simplify, ref_branch, hir, hgi, hgr, hjson]

/-- C2 counterexample: `docUnreachableCycle` contains a node that refs itself
(one `refNext` step maps it to itself, and it occurs inside the document),
yet `simplify` succeeds because the cycle is unreachable from the root — so
the claim "for every schema document containing a self-referential `$ref`
chain, `simplify` fails with a SchemaError" is false as stated. -/
theorem claim_C2_counterexample :
    refNext docUnreachableCycle selfRefNode = Option.some selfRefNode ∧
    SubVal selfRefNode docUnreachableCycle ∧
    simplify docUnreachableCycle =
      Except.ok (PyVal.dict [("type", PyVal.list [PyVal.str "object"]),
                             ("properties", PyVal.dict [])]) :=
  ⟨rfl,
   SubVal.inDict (List.Mem.head _)
     (SubVal.inDict (List.Mem.head _) (SubVal.refl _)),
   rfl⟩

/-- C2 amended: for every schema document whose `$ref` expansion from the root
never leaves the ref branch (a direct or indirect cycle reachable from the
root), `simplify` terminates and fails with a `JSONSchemaError` (the bounded
recursion is caught in the ref branch and converted); a document merely
containing an unreachable self-referential ref can simplify successfully. -/
theorem claim_C2_cyclic_ref_fails (root : PyVal) (h : CyclicFromRoot root) :
    ∃ m, simplify root = Except.error (PyErr.jsonSchemaError m) := by
  rcases cyclic_helper root sysRecursionLimit root h with ⟨h0, _⟩ | hm
  · exact absurd h0 (by decide)
  · exact hm

theorem claim_C2_cyclic_ref_fails_witness :
    ∃ m, simplify docRootCycle = Except.error (PyErr.jsonSchemaError m) := by
  have hx : ∀ n, refChain docRootCycle n (PyVal.dict [("$ref", PyVal.str "#/x")]) =
      Option.some (PyVal.dict [("$ref", PyVal.str "#/x")]) := by
    intro n
    induction n with
    | zero => rfl
    | succ k ihk =>
      rw [show refChain docRootCycle (k + 1) (PyVal.dict [("$ref", PyVal.str "#/x")]) =
          refChain docRootCycle k (PyVal.dict [("$ref", PyVal.str "#/x")]) from rfl]
      exact ihk
  exact claim_C2_cyclic_ref_fails docRootCycle (by
    intro n
    cases n with
    | zero => rfl
    | succ k =>
      rw [show refChain docRootCycle (k + 1) docRootCycle =
          refChain docRootCycle k (PyVal.dict [("$ref", PyVal.str "#/x")]) from rfl,
        hx k]
      rfl)

/-- C3 counterexample: on input `42`, step 1 records the not-a-dict message;
step 2 then raises an unexpected `TypeError` (a membership test on an int),
but because the error list is already non-empty
`_unexpected_validation_error` drops the exception: no "Unexpected exception"
message appears in the result, contradicting the claim that an unexpected
exception is "converted into a generic message appended to the running error
list".  The remaining steps did still run (the external checker's
`SchemaError` is appended). -/
theorem claim_C3_counterexample :
    valid_schema_version (PyVal.int 42) =
      Except.error (PyErr.typeError "argument of type int is not iterable") ∧
    validation_errors check_schema_stub (PyVal.int 42) =
      Except.ok ["Parameter `schema` is not a dict, instead found: <class \x27int\x27>",
                 "42 is not of type \x27object\x27"] ∧
    "Unexpected exception encountered: argument of type int is not iterable" ∉
      ["Parameter `schema` is not a dict, instead found: <class \x27int\x27>",
       "42 is not of type \x27object\x27"] := by
  refine ⟨rfl, rfl, ?_⟩
  decide

/-- C3 amended: `validation_errors` never raises for any input and any
behaviour of the external checker; an unexpected exception in a step aborts
only that step — the generic "unexpected exception" message is produced only
when the running error list is empty, otherwise the exception is silently
dropped and the list left unchanged; and the remaining steps still run (a
`JSONSchemaError` from the final `simplify` step is always appended,
whatever the earlier steps did). -/
theorem claim_C3_validation_resilience :
    (∀ cs s, ∃ l, validation_errors cs s = Except.ok l) ∧
    (∀ errs exc, errs ≠ [] → unexpected_validation_error errs exc = errs) ∧
    (∀ exc, unexpected_validation_error [] exc =
      ["Unexpected exception encountered: " ++ pyErrStr exc]) ∧
    (∀ cs s m, simplify s = Except.error (PyErr.jsonSchemaError m) →
      ∀ l, validation_errors cs s = Except.ok l → m ∈ l) := by
  refine ⟨fun cs s => ⟨_, rfl⟩, ?_, fun exc => rfl, ?_⟩
  · intro errs exc h
    simp [unexpected_validation_error, h]
  · intro cs s m hsim l hl
    simp only [validation_errors, hsim] at hl
    have hl2 := Except.ok.inj hl
    subst hl2
    simp

theorem get_type_of_strList (es : List (String × PyVal)) (ts : List String)
    (hty : lookupKey es "type" = Option.some (PyVal.list (ts.map PyVal.str)))
    (hne : ts ≠ []) :
    get_type (PyVal.dict es) = Except.ok (PyVal.list (ts.map PyVal.str)) := by
  cases ts with
  | nil => cases hne rfl
  | cons a tl => simp [get_type, pyGet, hty, pyTruthy]

theorem get_type_wf (es : List (String × PyVal)) (hok : typeFieldOk es = true) :
    ∃ ts, get_type (PyVal.dict es) = Except.ok (PyVal.list ts) ∧ ts ≠ [] := by
  cases hty : lookupKey es "type" with
  | none =>
    exact ⟨[PyVal.str "object"], by simp [get_type, pyGet, hty, pyTruthy], by simp⟩
  | some v =>
    by_cases htr : pyTruthy v = true
    · simp only [typeFieldOk, hty, htr] at hok
      cases v with
      | str s => exact ⟨[PyVal.str s], by simp [get_type, pyGet, hty, htr], by simp⟩
      | list xs =>
        refine ⟨xs, by simp [get_type, pyGet, hty, htr], ?_⟩
        intro h
        subst h
        simp [pyTruthy] at htr
      | none => simp [pyIsStr] at hok
      | bool b => simp [pyIsStr] at hok
      | int n => simp [pyIsStr] at hok
      | dict ds => simp [pyIsStr] at hok
    · rw [Bool.not_eq_true] at htr
      exact ⟨[PyVal.str "object"], by simp [get_type, pyGet, hty, htr], by simp⟩

theorem to_sql_tail_ok (es : List (String × PyVal)) (p : Bool × PyVal) :
    ∃ y, to_sql_tail (PyVal.dict es) p = Except.ok y := by
  rcases hfmt : lookupKey es "format" with _ | f <;>
    simp [to_sql_tail, pyContains, pyGetItem, hfmt]

theorem to_sql_tail_list (es : List (String × PyVal)) (xs : List PyVal) :
    to_sql_tail (PyVal.dict es) (true, PyVal.list xs) = Except.ok "text NOT NULL" := by
  rcases hfmt : lookupKey es "format" with _ | f <;>
    simp [to_sql_tail, pyContains, pyGetItem, hfmt, pyEqStr]

/-- C4: for a canonical node whose type set is an explicit (non-empty) list of
type names, `to_sql` fails with a `JSONSchemaError` exactly when the list has
more than two members; a two-member list without `null` does not fail and
yields `text` with the ` NOT NULL` suffix forced. -/
theorem claim_C4_to_sql_arity (es : List (String × PyVal)) (ts : List String)
    (hty : lookupKey es "type" = Option.some (PyVal.list (ts.map PyVal.str)))
    (hne : ts ≠ []) :
    ((∃ m, to_sql (PyVal.dict es) = Except.error (PyErr.jsonSchemaError m)) ↔
      2 < ts.length) ∧
    (ts.length = 2 → "null" ∉ ts →
      to_sql (PyVal.dict es) = Except.ok "text NOT NULL") := by
  have hgt := get_type_of_strList es ts hty hne
  match ts, hne with
  | [a], _ =>
    refine ⟨?_, by intro h; simp at h⟩
    have hok : to_sql (PyVal.dict es) = to_sql_tail (PyVal.dict es) (true, PyVal.str a) := by
      simp [to_sql, hgt, pyLen, pyIndex]
    obtain ⟨y, hy⟩ := to_sql_tail_ok es (true, PyVal.str a)
    rw [hok, hy]
    simp
  | [a, b], _ =>
    constructor
    · have hok : ∃ y, to_sql (PyVal.dict es) = Except.ok y := by
        by_cases ha : a = "null"
        · subst ha
          have hok : to_sql (PyVal.dict es) =
              to_sql_tail (PyVal.dict es) (false, PyVal.str b) := by
            simp [to_sql, hgt, pyLen, pyIndex, pyContains, pyEqStr,
              pyListIndex, listIdxOf]
          obtain ⟨y, hy⟩ := to_sql_tail_ok es (false, PyVal.str b)
          exact ⟨y, by rw [hok, hy]⟩
        · by_cases hb : b = "null"
          · subst hb
            have hok : to_sql (PyVal.dict es) =
                to_sql_tail (PyVal.dict es) (false, PyVal.str a) := by
              simp [to_sql, hgt, pyLen, pyIndex, pyContains, pyEqStr,
                pyListIndex, listIdxOf, ha]
            obtain ⟨y, hy⟩ := to_sql_tail_ok es (false, PyVal.str a)
            exact ⟨y, by rw [hok, hy]⟩
          · have hok : to_sql (PyVal.dict es) =
                to_sql_tail (PyVal.dict es)
                  (true, PyVal.list [PyVal.str a, PyVal.str b]) := by
              simp [to_sql, hgt, pyLen, pyContains, pyEqStr, ha, hb]
            obtain ⟨y, hy⟩ := to_sql_tail_ok es
              (true, PyVal.list [PyVal.str a, PyVal.str b])
            exact ⟨y, by rw [hok, hy]⟩
      obtain ⟨y, hy⟩ := hok
      simp [hy]
    · intro _ hnull
      simp only [List.mem_cons, List.not_mem_nil, or_false, not_or] at hnull
      have ha : a ≠ "null" := fun h => hnull.1 h.symm
      have hb : b ≠ "null" := fun h => hnull.2 h.symm
      have hok : to_sql (PyVal.dict es) =
          to_sql_tail (PyVal.dict es) (true, PyVal.list [PyVal.str a, PyVal.str b]) := by
        simp [to_sql, hgt, pyLen, pyContains, pyEqStr, ha, hb]
      rw [hok, to_sql_tail_list]
  | a :: b :: c :: rest, _ =>
    constructor
    · have herr : to_sql (PyVal.dict es) =
          Except.error (PyErr.jsonSchemaError "Multiple types per column not supported") := by
        have hlen1 : ((a :: b :: c :: rest).map PyVal.str).length ≠ 1 := by
          simp
        have hlen2 : ((a :: b :: c :: rest).map PyVal.str).length ≠ 2 := by
          simp
        have hlen3 : 2 < ((a :: b :: c :: rest).map PyVal.str).length := by
          simp
        simp [to_sql, hgt, pyLen, hlen1, hlen2, hlen3]
      rw [herr]
      simp
    · intro h
      simp at h

theorem lookup_setKey_self (es : List (String × PyVal)) (k : String) (v : PyVal) :
    lookupKey (setKey es k v) k = Option.some v := by
  induction es with
  | nil => simp [setKey]
  | cons p rest ih =>
    obtain ⟨pk, pv⟩ := p
    by_cases h : pk = k <;> simp [setKey, h, ih]

theorem lookup_setKey_other (es : List (String × PyVal)) (k k' : String) (v : PyVal)
    (hne : k' ≠ k) : lookupKey (setKey es k v) k' = lookupKey es k' := by
  have hne' : ¬ k = k' := fun h => hne h.symm
  induction es with
  | nil => simp [setKey, hne']
  | cons p rest ih =>
    obtain ⟨pk, pv⟩ := p
    by_cases h : pk = k
    · subst h
      simp [setKey, hne']
    · simp [setKey, h, ih]

theorem copy_keeps_format {child base out v : PyVal}
    (hv : dictGet child "format" = Option.some v)
    (h : copy_format_default child base = Except.ok out) :
    dictGet out "format" = Option.some v := by
  cases child with
  | dict cs =>
    simp only [dictGet] at hv
    simp only [copy_format_default, pyContains, pyGet, hv, Option.isSome_some,
      Option.getD_some, if_true, exBind_ok] at h
    cases base with
    | dict bs =>
      simp only [pySetItem, exBind_ok] at h
      by_cases hd : (lookupKey cs "default").isSome
      · obtain ⟨d, hdv⟩ := Option.isSome_iff_exists.mp hd
        simp only [hdv, Option.isSome_some, if_true, Option.getD_some,
          pySetItem, exBind_ok, exPure_def] at h
        have h2 := Except.ok.inj h
        subst h2
        have e1 : lookupKey (setKey (setKey bs "format" v) "default" d) "format" =
            lookupKey (setKey bs "format" v) "format" :=
          lookup_setKey_other _ "default" "format" d (by decide)
        simp [dictGet, e1, lookup_setKey_self]
      · rw [Option.not_isSome_iff_eq_none] at hd
        simp only [hd, Option.isSome_none, Bool.false_eq_true, if_false,
          exPure_def] at h
        have h2 := Except.ok.inj h
        subst h2
        simp [dictGet, lookup_setKey_self]
    | none => simp [pySetItem] at h
    | bool b => simp [pySetItem] at h
    | int n => simp [pySetItem] at h
    | str s => simp [pySetItem] at h
    | list xs => simp [pySetItem] at h
  | none => simp [dictGet] at hv
  | bool b => simp [dictGet] at hv
  | int n => simp [dictGet] at hv
  | str s => simp [dictGet] at hv
  | list xs => simp [dictGet] at hv

theorem copy_keeps_default {child base out v : PyVal}
    (hv : dictGet child "default" = Option.some v)
    (h : copy_format_default child base = Except.ok out) :
    dictGet out "default" = Option.some v := by
  cases child with
  | dict cs =>
    simp only [dictGet] at hv
    simp only [copy_format_default, pyContains, pyGet, hv, Option.isSome_some,
      Option.getD_some, if_true, exBind_ok] at h
    by_cases hf : (lookupKey cs "format").isSome
    · obtain ⟨f, hfv⟩ := Option.isSome_iff_exists.mp hf
      simp only [hfv, Option.isSome_some, if_true, Option.getD_some, exBind_ok] at h
      cases base with
      | dict bs =>
        simp only [pySetItem, exBind_ok, exPure_def] at h
        have h2 := Except.ok.inj h
        subst h2
        simp [dictGet, lookup_setKey_self]
      | none => simp [pySetItem] at h
      | bool b => simp [pySetItem] at h
      | int n => simp [pySetItem] at h
      | str s => simp [pySetItem] at h
      | list xs => simp [pySetItem] at h
    · rw [Option.not_isSome_iff_eq_none] at hf
      simp only [hf, Option.isSome_none, Bool.false_eq_true, if_false,
        exPure_def, exBind_ok] at h
      cases base with
      | dict bs =>
        simp only [pySetItem, exBind_ok, exPure_def] at h
        have h2 := Except.ok.inj h
        subst h2
        simp [dictGet, lookup_setKey_self]
      | none => simp [pySetItem] at h
      | bool b => simp [pySetItem] at h
      | int n => simp [pySetItem] at h
      | str s => simp [pySetItem] at h
      | list xs => simp [pySetItem] at h
  | none => simp [dictGet] at hv
  | bool b => simp [dictGet] at hv
  | int n => simp [dictGet] at hv
  | str s => simp [dictGet] at hv
  | list xs => simp [dictGet] at hv

theorem copy_noop {child : PyVal} (base : PyVal) (hd : pyIsDict child = true)
    (hf : dictGet child "format" = Option.none)
    (hdf : dictGet child "default" = Option.none) :
    copy_format_default child base = Except.ok base := by
  cases child with
  | dict cs =>
    simp only [dictGet] at hf hdf
    simp [copy_format_default, pyContains, hf, hdf]
  | none => simp [pyIsDict] at hd
  | bool b => simp [pyIsDict] at hd
  | int n => simp [pyIsDict] at hd
  | str s => simp [pyIsDict] at hd
  | list xs => simp [pyIsDict] at hd

theorem helper_simplify_succ (root : PyVal) (fuel : Nat) (child : PyVal) :
    ∃ base : Except PyErr PyVal,
      helper_simplify root (fuel + 1) child = base >>= copy_format_default child :=
  ⟨_, rfl⟩

/-- C6 counterexample: simplifying `docRefFormat`, whose root is a ref node
with no `format` of its own pointing at a target carrying
`format: date-time`, produces a node whose `format` comes from the resolved
target — contradicting "format and default are taken from the referencing
node, not from the resolved target" (which would require no `format` in the
result). -/
theorem claim_C6_counterexample :
    dictGet docRefFormat "format" = Option.none ∧
    simplify docRefFormat =
      Except.ok (PyVal.dict [("type", PyVal.list [PyVal.str "string"]),
                             ("format", PyVal.str "date-time")]) ∧
    dictGet (PyVal.dict [("type", PyVal.list [PyVal.str "string"]),
                         ("format", PyVal.str "date-time")]) "format" =
      Option.some (PyVal.str "date-time") :=
  ⟨rfl, rfl, rfl⟩

/-- C6 amended: in every branch of `_helper_simplify` (the ref branch
included), a `format` or `default` key present on the original referencing
node overrides the corresponding key of the result; but when the referencing
ref node carries neither key, the ref expansion returns the simplification of
the resolved target unchanged, so a `format`/`default` of the target
survives. -/
theorem claim_C6_format_default :
    (∀ root fuel child r v, helper_simplify root fuel child = Except.ok r →
      dictGet child "format" = Option.some v → dictGet r "format" = Option.some v) ∧
    (∀ root fuel child r v, helper_simplify root fuel child = Except.ok r →
      dictGet child "default" = Option.some v → dictGet r "default" = Option.some v) ∧
    (∀ root fuel child rf tgt res, pyIsDict child = true →
      dictGet child "$ref" = Option.some rf →
      dictGet child "format" = Option.none → dictGet child "default" = Option.none →
      get_ref root rf = Except.ok tgt →
      helper_simplify root fuel tgt = Except.ok res →
      helper_simplify root (fuel + 1) child = Except.ok res) := by
  refine ⟨?_, ?_, ?_⟩
  · intro root fuel child r v h hv
    cases fuel with
    | zero => simp [helper_simplify] at h
    | succ n =>
      obtain ⟨base, hbase⟩ := helper_simplify_succ root n child
      rw [hbase] at h
      obtain ⟨b, _, hcopy⟩ := bindOkInv h
      exact copy_keeps_format hv hcopy
  · intro root fuel child r v h hv
    cases fuel with
    | zero => simp [helper_simplify] at h
    | succ n =>
      obtain ⟨base, hbase⟩ := helper_simplify_succ root n child
      rw [hbase] at h
      obtain ⟨b, _, hcopy⟩ := bindOkInv h
      exact copy_keeps_default hv hcopy
  · intro root fuel child rf tgt res hdict href hf hdf hgr hrec
    cases child with
    | dict cs =>
      simp only [dictGet] at href
      have hir : is_ref (PyVal.dict cs) = Except.ok true := by
        simp [is_ref, pyContains, href]
      have hgi : pyGetItem (PyVal.dict cs) "$ref" = Except.ok rf := by
        simp [pyGetItem, href]
      simp only [helper_simplify, ref_branch, hir, hgi, exBind_ok, hgr, hrec]
      exact copy_noop res hdict hf hdf
    | none => simp [pyIsDict] at hdict
    | bool b => simp [pyIsDict] at hdict
    | int n => simp [pyIsDict] at hdict
    | str s => simp [pyIsDict] at hdict
    | list xs => simp [pyIsDict] at hdict

theorem claim_C6_format_default_witness :
    dictGet (PyVal.dict [("type", PyVal.list [PyVal.str "string"]),
                         ("format", PyVal.str "date-time")]) "format" =
      Option.some (PyVal.str "date-time") ∧
    helper_simplify docRefFormat 3 docRefFormat =
      Except.ok (PyVal.dict [("type", PyVal.list [PyVal.str "string"]),
                             ("format", PyVal.str "date-time")]) := by
  constructor
  · exact claim_C6_format_default.1 docRefFormat 2
      (PyVal.dict [("type", PyVal.str "string"), ("format", PyVal.str "date-time")])
      (PyVal.dict [("type", PyVal.list [PyVal.str "string"]),
                   ("format", PyVal.str "date-time")])
      (PyVal.str "date-time") (by rfl) (by rfl)
  · exact claim_C6_format_default.2.2 docRefFormat 2 docRefFormat
      (PyVal.str "#/x")
      (PyVal.dict [("type", PyVal.str "string"), ("format", PyVal.str "date-time")])
      (PyVal.dict [("type", PyVal.list [PyVal.str "string"]),
                   ("format", PyVal.str "date-time")])
      (by rfl) (by rfl) (by rfl) (by rfl) (by rfl) (by rfl)

theorem pySetItem_ok_inv {c : PyVal} {k : String} {v out : PyVal}
    (h : pySetItem c k v = Except.ok out) :
    ∃ es, c = PyVal.dict es ∧ out = PyVal.dict (setKey es k v) := by
  cases c <;> simp [pySetItem] at h
  exact ⟨_, rfl, h.symm⟩

theorem copy_other_key {child base out : PyVal} {k : String}
    (hk1 : ¬ k = "format") (hk2 : ¬ k = "default")
    (h : copy_format_default child base = Except.ok out) :
    dictGet out k = dictGet base k := by
  cases child with
  | dict cs =>
    rcases hfv : lookupKey cs "format" with _ | f <;>
      rcases hdv : lookupKey cs "default" with _ | d <;>
      simp only [copy_format_default, pyContains, pyGet, hfv, hdv,
        Option.isSome_some, Option.isSome_none, Option.getD_some,
        Bool.false_eq_true, if_true, if_false, exBind_ok, exPure_def] at h
    · exact congrArg (fun z => dictGet z k) (Except.ok.inj h).symm
    · obtain ⟨bs, hb, ho⟩ := pySetItem_ok_inv h
      subst hb
      subst ho
      simp [dictGet, lookup_setKey_other _ _ _ _ hk2]
    · obtain ⟨r1, h1, h2⟩ := bindOkInv h
      obtain ⟨bs, hb, hr1⟩ := pySetItem_ok_inv h1
      subst hb
      have h2' := Except.ok.inj h2
      subst h2'
      subst hr1
      simp [dictGet, lookup_setKey_other _ _ _ _ hk1]
    · obtain ⟨r1, h1, h2⟩ := bindOkInv h
      obtain ⟨bs, hb, hr1⟩ := pySetItem_ok_inv h1
      subst hb
      subst hr1
      obtain ⟨bs2, hb2, ho⟩ := pySetItem_ok_inv h2
      have hb2' := PyVal.dict.inj hb2
      subst hb2'
      subst ho
      simp [dictGet, lookup_setKey_other _ _ _ _ hk2,
        lookup_setKey_other _ _ _ _ hk1]
  | none => simp [copy_format_default, pyContains] at h
  | bool b => simp [copy_format_default, pyContains] at h
  | int n => simp [copy_format_default, pyContains] at h
  | str s =>
    by_cases h1 : strInsideB "format" s = true
    · simp [copy_format_default, pyContains, pyGet, h1] at h
    · by_cases h2 : strInsideB "default" s = true
      · simp [copy_format_default, pyContains, pyGet, h1, h2] at h
      · simp [copy_format_default, pyContains, pyGet, h1, h2] at h
        subst h
        rfl
  | list xs =>
    by_cases h1 : xs.any (fun v => pyEqStr v "format") = true
    · simp [copy_format_default, pyContains, pyGet, h1] at h
    · by_cases h2 : xs.any (fun v => pyEqStr v "default") = true
      · simp [copy_format_default, pyContains, pyGet, h1, h2] at h
      · simp [copy_format_default, pyContains, pyGet, h1, h2] at h
        subst h
        rfl

theorem SubVal.strans {a b c : PyVal} (h1 : SubVal a b) (h2 : SubVal b c) :
    SubVal a c := by
  induction h2 with
  | refl => exact h1
  | inDict hmem _ ih => exact SubVal.inDict hmem ih
  | inList hmem _ ih => exact SubVal.inList hmem ih

theorem lookup_mem {es : List (String × PyVal)} {k : String} {v : PyVal}
    (h : lookupKey es k = Option.some v) : (k, v) ∈ es := by
  induction es with
  | nil => simp at h
  | cons p rest ih =>
    obtain ⟨pk, pv⟩ := p
    by_cases hk : pk = k
    · subst hk
      simp at h
      subst h
      exact List.mem_cons_self _ _
    · simp only [lookupKey_cons, if_neg hk] at h
      exact List.mem_cons_of_mem _ (ih h)

theorem pyGetItem_ok_inv {c : PyVal} {k : String} {v : PyVal}
    (h : pyGetItem c k = Except.ok v) :
    ∃ es, c = PyVal.dict es ∧ lookupKey es k = Option.some v := by
  cases c <;> simp [pyGetItem] at h
  next es =>
    cases hl : lookupKey es k with
    | none => rw [hl] at h; simp at h
    | some w => rw [hl] at h; simp at h; exact ⟨es, rfl, by rw [hl, h]⟩

theorem pyGet_ok_inv {c : PyVal} {k : String} {d v : PyVal}
    (h : pyGet c k d = Except.ok v) :
    ∃ es, c = PyVal.dict es ∧ v = (lookupKey es k).getD d := by
  cases c <;> simp [pyGet] at h
  next es => exact ⟨es, rfl, h.symm⟩

theorem pyDictItems_ok_inv {c : PyVal} {es : List (String × PyVal)}
    (h : pyDictItems c = Except.ok es) : c = PyVal.dict es := by
  cases c <;> simp [pyDictItems] at h
  next es2 => rw [h]

theorem get_type_ok_dict {c t : PyVal} (h : get_type c = Except.ok t) :
    ∃ es, c = PyVal.dict es := by
  obtain ⟨v, hv, _⟩ := bindOkInv h
  obtain ⟨es, hc, _⟩ := pyGet_ok_inv hv
  exact ⟨es, hc⟩

theorem get_ref_aux_subval :
    ∀ (paths : List String) (cur tgt : PyVal),
      get_ref_aux paths cur = Except.ok tgt → SubVal tgt cur := by
  intro paths
  induction paths with
  | nil =>
    intro cur tgt h
    simp only [get_ref_aux] at h
    rw [Except.ok.inj h]
    exact SubVal.refl _
  | cons p rest ih =>
    intro cur tgt h
    simp only [get_ref_aux] at h
    obtain ⟨c, hc, h2⟩ := bindOkInv h
    by_cases hb : c = true
    · subst hb
      simp only [if_pos rfl] at h2
      obtain ⟨v, hv, h3⟩ := bindOkInv h2
      obtain ⟨es, hes, hl⟩ := pyGetItem_ok_inv hv
      subst hes
      exact SubVal.strans (ih v tgt h3) (SubVal.inDict (lookup_mem hl) (SubVal.refl _))
    · rw [Bool.not_eq_true] at hb
      subst hb
      simp at h2

theorem get_ref_subval {root rv tgt : PyVal}
    (h : get_ref root rv = Except.ok tgt) : SubVal tgt root := by
  cases rv <;> simp [get_ref] at h
  next s =>
    by_cases hs : strLeadsB "#/" s = true
    · rw [if_pos hs] at h
      exact get_ref_aux_subval _ _ _ h
    · rw [if_neg hs] at h
      simp at h

theorem simplifyEntries_mem {f : PyVal → Except PyErr PyVal} :
    ∀ {es out : List (String × PyVal)},
      simplifyEntries f es = Except.ok out →
      ∀ p ∈ out, ∃ v, (p.1, v) ∈ es ∧ f v = Except.ok p.2 := by
  intro es
  induction es with
  | nil =>
    intro out h p hp
    simp only [simplifyEntries] at h
    rw [← Except.ok.inj h] at hp
    simp at hp
  | cons q rest ih =>
    intro out h p hp
    obtain ⟨qk, qv⟩ := q
    simp only [simplifyEntries] at h
    obtain ⟨sv, hsv, h2⟩ := bindOkInv h
    obtain ⟨srest, hsrest, h3⟩ := bindOkInv h2
    rw [← Except.ok.inj h3] at hp
    rcases List.mem_cons.mp hp with hphead | hptail
    · subst hphead
      exact ⟨qv, List.mem_cons_self _ _, hsv⟩
    · obtain ⟨v, hvmem, hfv⟩ := ih hsrest p hptail
      exact ⟨v, List.mem_cons_of_mem _ hvmem, hfv⟩

theorem canonical_setKey {es : List (String × PyVal)} {k : String} {v : PyVal}
    (hc : Canonical (PyVal.dict es))
    (h1 : ¬ "$ref" = k) (h2 : ¬ "type" = k) (h3 : ¬ "properties" = k)
    (h4 : ¬ "items" = k) :
    Canonical (PyVal.dict (setKey es k v)) := by
  cases hc with
  | mk _ hr ht hp hi =>
    refine Canonical.mk _ ?_ ?_ ?_ ?_
    · rw [lookup_setKey_other _ _ _ _ h1]
      exact hr
    · rw [lookup_setKey_other _ _ _ _ h2]
      exact ht
    · intro ps hps
      rw [lookup_setKey_other _ _ _ _ h3] at hps
      exact hp ps hps
    · intro it hit
      rw [lookup_setKey_other _ _ _ _ h4] at hit
      exact hi it hit

theorem copy_canonical {child base out : PyVal} (hc : Canonical base)
    (h : copy_format_default child base = Except.ok out) : Canonical out := by
  cases child with
  | dict cs =>
    rcases hfv : lookupKey cs "format" with _ | f <;>
      rcases hdv : lookupKey cs "default" with _ | d <;>
      simp only [copy_format_default, pyContains, pyGet, hfv, hdv,
        Option.isSome_some, Option.isSome_none, Option.getD_some,
        Bool.false_eq_true, if_true, if_false, exBind_ok, exPure_def] at h
    · rw [← Except.ok.inj h]
      exact hc
    · obtain ⟨bs, hb, ho⟩ := pySetItem_ok_inv h
      subst hb
      subst ho
      exact canonical_setKey hc (by decide) (by decide) (by decide) (by decide)
    · obtain ⟨r1, h1, h2⟩ := bindOkInv h
      obtain ⟨bs, hb, hr1⟩ := pySetItem_ok_inv h1
      subst hb
      have h2' := Except.ok.inj h2
      subst h2'
      subst hr1
      exact canonical_setKey hc (by decide) (by decide) (by decide) (by decide)
    · obtain ⟨r1, h1, h2⟩ := bindOkInv h
      obtain ⟨bs, hb, hr1⟩ := pySetItem_ok_inv h1
      subst hb
      subst hr1
      obtain ⟨bs2, hb2, ho⟩ := pySetItem_ok_inv h2
      have hb2' := PyVal.dict.inj hb2
      subst hb2'
      subst ho
      exact canonical_setKey
        (canonical_setKey hc (by decide) (by decide) (by decide) (by decide))
        (by decide) (by decide) (by decide) (by decide)
  | none => simp [copy_format_default, pyContains] at h
  | bool b => simp [copy_format_default, pyContains] at h
  | int n => simp [copy_format_default, pyContains] at h
  | str s =>
    by_cases h1 : strInsideB "format" s = true
    · simp [copy_format_default, pyContains, pyGet, h1] at h
    · by_cases h2 : strInsideB "default" s = true
      · simp [copy_format_default, pyContains, pyGet, h1, h2] at h
      · simp [copy_format_default, pyContains, pyGet, h1, h2] at h
        rw [← h]
        exact hc
  | list xs =>
    by_cases h1 : xs.any (fun v => pyEqStr v "format") = true
    · simp [copy_format_default, pyContains, pyGet, h1] at h
    · by_cases h2 : xs.any (fun v => pyEqStr v "default") = true
      · simp [copy_format_default, pyContains, pyGet, h1, h2] at h
      · simp [copy_format_default, pyContains, pyGet, h1, h2] at h
        rw [← h]
        exact hc

theorem ref_branch_ok_inv {root : PyVal} {f : PyVal → Except PyErr PyVal}
    {child v : PyVal} (h : ref_branch root f child = Except.ok v) :
    ∃ rf tgt, pyGetItem child "$ref" = Except.ok rf ∧
      get_ref root rf = Except.ok tgt ∧ f tgt = Except.ok v := by
  unfold ref_branch at h
  cases hin : (do
      let rf ← pyGetItem child "$ref"
      let tgt ← get_ref root rf
      f tgt : Except PyErr PyVal) with
  | ok w =>
    rw [hin] at h
    simp at h
    subst h
    obtain ⟨rf, hrf, h2⟩ := bindOkInv hin
    obtain ⟨tgt, htgt, h3⟩ := bindOkInv h2
    exact ⟨rf, tgt, hrf, htgt, h3⟩
  | error e =>
    rw [hin] at h
    cases e with
    | recursionError =>
      obtain ⟨rf, hrf, h2⟩ := bindOkInv h
      obtain ⟨tgt, htgt, h3⟩ := bindOkInv h2
      simp at h3
    | jsonSchemaError m => simp at h
    | schemaError m => simp at h
    | typeError m => simp at h
    | attributeError m => simp at h
    | keyError m => simp at h
    | indexError m => simp at h
    | valueError m => simp at h

theorem is_iterable_items_inv {child : PyVal} {cs : List (String × PyVal)}
    (hcs : child = PyVal.dict cs) (h : is_iterable child = Except.ok true) :
    (lookupKey cs "items").isSome = true := by
  subst hcs
  simp only [is_iterable] at h
  obtain ⟨b, hb, h2⟩ := bindOkInv h
  cases b with
  | true => simp at h2
  | false =>
    simp only [if_false, Bool.false_eq_true, exBind_ok] at h2
    obtain ⟨t, ht, h3⟩ := bindOkInv h2
    obtain ⟨a, ha, h4⟩ := bindOkInv h3
    cases a with
    | false => simp at h4
    | true =>
      simp only [if_true, pyContains] at h4
      exact Except.ok.inj h4

/-- The central invariant: starting anywhere inside a document all of whose
dict sub-nodes have data-model-conforming `type` fields, every successful
run of `_helper_simplify` returns a canonical node. -/
theorem helper_simplify_canonical (root : PyVal)
    (H : ∀ es, SubVal (PyVal.dict es) root → typeFieldOk es = true) :
    ∀ fuel child r, SubVal child root →
      helper_simplify root fuel child = Except.ok r → Canonical r := by
  intro fuel
  induction fuel with
  | zero =>
    intro child r _ h
    simp [helper_simplify] at h
  | succ n ih =>
    intro child r hsub h
    simp only [helper_simplify] at h
    cases hir : is_ref child with
    | error e => rw [hir] at h; simp at h
    | ok b =>
      cases b with
      | true =>
        rw [hir] at h
        obtain ⟨base, hbase, hcopy⟩ := bindOkInv h
        have hbase2 : ref_branch root (helper_simplify root n) child =
            Except.ok base := hbase
        obtain ⟨rf, tgt, hrf, htgt, hrun⟩ := ref_branch_ok_inv hbase2
        have hsubtgt : SubVal tgt root := get_ref_subval htgt
        exact copy_canonical (ih tgt base hsubtgt hrun) hcopy
      | false =>
        rw [hir] at h
        cases hio : is_object child with
        | error e => rw [hio] at h; simp at h
        | ok ob =>
          cases ob with
          | true =>
            rw [hio] at h
            simp only [exBind_ok] at h
            obtain ⟨base, hbase, hcopy⟩ := bindOkInv h
            obtain ⟨props, hp, h2⟩ := bindOkInv hbase
            obtain ⟨entries, he, h3⟩ := bindOkInv h2
            obtain ⟨simplified, hs, h4⟩ := bindOkInv h3
            obtain ⟨t, ht, h5⟩ := bindOkInv h4
            have hbval := Except.ok.inj h5
            obtain ⟨cs, hcs, hpv⟩ := pyGet_ok_inv hp
            obtain ⟨ts, hts, _⟩ := get_type_wf cs (H cs (hcs ▸ hsub))
            rw [hcs] at ht
            rw [ht] at hts
            have htl := Except.ok.inj hts
            have hpd := pyDictItems_ok_inv he
            have hcanon : ∀ p ∈ simplified, Canonical p.2 := by
              intro p hp2
              obtain ⟨v, hvmem, hfv⟩ := simplifyEntries_mem hs p hp2
              have hsubv : SubVal v child := by
                rw [hcs]
                cases hlp : lookupKey cs "properties" with
                | none =>
                  rw [hlp] at hpv
                  simp only [Option.getD_none] at hpv
                  rw [hpv] at hpd
                  have := PyVal.dict.inj hpd
                  rw [← this] at hvmem
                  simp at hvmem
                | some pv =>
                  rw [hlp] at hpv
                  simp only [Option.getD_some] at hpv
                  have hsubp : SubVal props (PyVal.dict cs) :=
                    SubVal.inDict (lookup_mem (hpv ▸ hlp)) (SubVal.refl _)
                  have hsubvp : SubVal v props :=
                    hpd ▸ SubVal.inDict hvmem (SubVal.refl _)
                  exact SubVal.strans hsubvp hsubp
              exact ih v p.2 (SubVal.strans hsubv hsub) hfv
            have hcb : Canonical base := by
              rw [← hbval, htl]
              refine Canonical.mk _ (by rfl) ⟨ts, by rfl⟩ ?_ ?_
              · intro ps hps
                rw [show lookupKey [("type", PyVal.list ts),
                    ("properties", PyVal.dict simplified)] "properties" =
                    Option.some (PyVal.dict simplified) from rfl] at hps
                have heq := PyVal.dict.inj (Option.some.inj hps)
                rw [← heq]
                exact hcanon
              · intro it hit
                rw [show lookupKey [("type", PyVal.list ts),
                    ("properties", PyVal.dict simplified)] "items" =
                    Option.none from rfl] at hit
                cases hit
            exact copy_canonical hcb hcopy
          | false =>
            rw [hio] at h
            cases hii : is_iterable child with
            | error e => rw [hii] at h; simp at h
            | ok ib =>
              cases ib with
              | true =>
                rw [hii] at h
                simp only [exBind_ok] at h
                obtain ⟨base, hbase, hcopy⟩ := bindOkInv h
                obtain ⟨t, ht, h2⟩ := bindOkInv hbase
                obtain ⟨items, hitems, h3⟩ := bindOkInv h2
                obtain ⟨si, hsi, h4⟩ := bindOkInv h3
                have hbval := Except.ok.inj h4
                obtain ⟨cs, hcs⟩ := get_type_ok_dict ht
                obtain ⟨ts, hts, _⟩ := get_type_wf cs (H cs (hcs ▸ hsub))
                rw [hcs] at ht
                rw [ht] at hts
                have htl := Except.ok.inj hts
                have hsome := is_iterable_items_inv hcs hii
                obtain ⟨it, hlit⟩ := Option.isSome_iff_exists.mp hsome
                obtain ⟨cs2, hcs2, hiv⟩ := pyGet_ok_inv hitems
                rw [hcs] at hcs2
                have hcseq := PyVal.dict.inj hcs2
                rw [← hcseq] at hiv
                rw [hlit] at hiv
                simp only [Option.getD_some] at hiv
                have hsubit : SubVal items child := by
                  rw [hcs, hiv]
                  exact SubVal.inDict (lookup_mem hlit) (SubVal.refl _)
                have hcsi : Canonical si :=
                  ih items si (SubVal.strans hsubit hsub) hsi
                have hcb : Canonical base := by
                  rw [← hbval, htl]
                  refine Canonical.mk _ (by rfl) ⟨ts, by rfl⟩ ?_ ?_
                  · intro ps hps
                    rw [show lookupKey [("type", PyVal.list ts), ("items", si)]
                        "properties" = Option.none from rfl] at hps
                    cases hps
                  · intro it2 hit2
                    rw [show lookupKey [("type", PyVal.list ts), ("items", si)]
                        "items" = Option.some si from rfl] at hit2
                    have heq := Option.some.inj hit2
                    rw [← heq]
                    exact hcsi
                exact copy_canonical hcb hcopy
              | false =>
                rw [hii] at h
                simp only [exBind_ok] at h
                obtain ⟨base, hbase, hcopy⟩ := bindOkInv h
                obtain ⟨t, ht, h2⟩ := bindOkInv hbase
                have hbval := Except.ok.inj h2
                obtain ⟨cs, hcs⟩ := get_type_ok_dict ht
                obtain ⟨ts, hts, _⟩ := get_type_wf cs (H cs (hcs ▸ hsub))
                rw [hcs] at ht
                rw [ht] at hts
                have htl := Except.ok.inj hts
                have hcb : Canonical base := by
                  rw [← hbval, htl]
                  refine Canonical.mk _ (by rfl) ⟨ts, by rfl⟩ ?_ ?_
                  · intro ps hps
                    rw [show lookupKey [("type", PyVal.list ts)] "properties" =
                        Option.none from rfl] at hps
                    cases hps
                  · intro it hit
                    rw [show lookupKey [("type", PyVal.list ts)] "items" =
                        Option.none from rfl] at hit
                    cases hit
                exact copy_canonical hcb hcopy

/-- C8: for every schema document all of whose dict nodes carry a
data-model-conforming `type` field (absent, falsy, a type-name string, or a
list — the shape §3 of the spec prescribes), a successful `simplify` returns
a tree in which no node (at any depth through `properties`/`items`) contains
a `$ref` key and every node's `type` key is present and is an explicit
list. -/
theorem claim_C8_canonical_invariant (schema r : PyVal)
    (H : ∀ es, SubVal (PyVal.dict es) schema → typeFieldOk es = true)
    (h : simplify schema = Except.ok r) : Canonical r :=
  helper_simplify_canonical schema H sysRecursionLimit schema r (SubVal.refl _) h

theorem claim_C8_canonical_invariant_witness :
    Canonical (PyVal.dict [("type", PyVal.list [PyVal.str "string"])]) := by
  refine claim_C8_canonical_invariant (PyVal.dict [("type", PyVal.str "string")])
    (PyVal.dict [("type", PyVal.list [PyVal.str "string"])]) ?_ (by rfl)
  intro es hsub
  cases hsub with
  | refl => rfl
  | inDict hmem hsub2 =>
    simp at hmem
    rw [hmem.2] at hsub2
    cases hsub2

/-- C10: on a non-ref node classified both as object and as iterable (for
example typed `array` with both a `properties` and an `items` key),
`_helper_simplify` takes the object branch: any successful result carries a
`properties` mapping and no `items` key — the `items` subtree is discarded. -/
theorem claim_C10_object_branch (root child : PyVal) (fuel : Nat) (r : PyVal)
    (href : is_ref child = Except.ok false)
    (hobj : is_object child = Except.ok true)
    (_hit : is_iterable child = Except.ok true)
    (h : helper_simplify root fuel child = Except.ok r) :
    (∃ ps, dictGet r "properties" = Option.some (PyVal.dict ps)) ∧
    dictGet r "items" = Option.none := by
  cases fuel with
  | zero => simp [helper_simplify] at h
  | succ n =>
    simp only [helper_simplify, href, hobj] at h
    obtain ⟨base, hbase, hcopy⟩ := bindOkInv h
    obtain ⟨props, hp, h2⟩ := bindOkInv hbase
    obtain ⟨entries, he, h3⟩ := bindOkInv h2
    obtain ⟨simplified, hs, h4⟩ := bindOkInv h3
    obtain ⟨t, ht, h5⟩ := bindOkInv h4
    have hb : base = PyVal.dict [("type", t), ("properties", PyVal.dict simplified)] :=
      (Except.ok.inj h5).symm
    subst hb
    have e1 := copy_other_key (k := "properties") (by decide) (by decide) hcopy
    have e2 := copy_other_key (k := "items") (by decide) (by decide) hcopy
    rw [e1, e2]
    constructor
    · exact ⟨simplified, by simp [dictGet]⟩
    · simp [dictGet]

theorem claim_C10_object_branch_witness :
    (∃ ps, dictGet (PyVal.dict [("type", PyVal.list [PyVal.str "array"]),
        ("properties", PyVal.dict [])]) "properties" =
      Option.some (PyVal.dict ps)) ∧
    dictGet (PyVal.dict [("type", PyVal.list [PyVal.str "array"]),
        ("properties", PyVal.dict [])]) "items" = Option.none :=
  claim_C10_object_branch PyVal.none
    (PyVal.dict [("type", PyVal.str "array"), ("properties", PyVal.dict []),
                 ("items", PyVal.dict [])])
    5
    (PyVal.dict [("type", PyVal.list [PyVal.str "array"]),
                 ("properties", PyVal.dict [])])
    (by rfl) (by rfl) (by rfl) (by rfl)

theorem mem_insertStr (x s : String) (l : List String) :
    x ∈ insertStr s l ↔ x = s ∨ x ∈ l := by
  induction l with
  | nil => simp [insertStr]
  | cons t rest ih =>
    by_cases h : strLtB s t
    · simp [insertStr, h]
    · simp [insertStr, h, ih]
      tauto

theorem mem_sortStrs (x : String) (l : List String) :
    x ∈ sortStrs l ↔ x ∈ l := by
  induction l with
  | nil => simp [sortStrs]
  | cons s rest ih => simp [sortStrs, mem_insertStr, ih]

theorem strElems_map (ts : List String) :
    strElems (ts.map PyVal.str) = Option.some ts := by
  induction ts with
  | nil => rfl
  | cons s rest ih => simp [strElems, ih]

theorem concatShorthands_ok (l : List String)
    (h : ∀ s ∈ l, (lookupShorthand shorthand_mapping s).isSome) :
    concatShorthands l = Except.ok (strJoin (l.map codeOf)) := by
  induction l with
  | nil => rfl
  | cons s rest ih =>
    obtain ⟨c, hc⟩ := Option.isSome_iff_exists.mp (h s (List.mem_cons_self s rest))
    have ihr := ih (fun x hx => h x (List.mem_cons_of_mem _ hx))
    simp [concatShorthands, shorthandOfStr, hc, ihr, codeOf, strJoin]

/-- C5 counterexample: `sql_shorthand({type: ["integer","boolean"]})` returns
`"bi"` — sorted type-name order is `boolean, integer`, so the codes come out
`b` then `i` — not `"ib"` as the claim states. -/
theorem claim_C5_counterexample :
    sql_shorthand (PyVal.dict
      [("type", PyVal.list [PyVal.str "integer", PyVal.str "boolean"])]) =
      Except.ok "bi" ∧ "bi" ≠ "ib" :=
  ⟨rfl, by decide⟩

/-- C5 amended: `sql_shorthand` concatenates the one-character codes of the
members of the type set in sorted (lexical) type-name order, `null`
contributing the empty string; `sql_shorthand({type: ["string","null"]})`
returns `"s"` and `sql_shorthand({type: ["integer","boolean"]})` returns
`"bi"` (the codes of `boolean`, `integer` in sorted type-name order), not
`"ib"`. -/
theorem claim_C5_shorthand_sorted (ts : List String) (hne : ts ≠ [])
    (htable : ∀ s ∈ ts, (lookupShorthand shorthand_mapping s).isSome) :
    sql_shorthand (PyVal.dict [("type", PyVal.list (ts.map PyVal.str))]) =
      Except.ok (strJoin ((sortStrs ts).map codeOf)) ∧
    sql_shorthand (PyVal.dict
      [("type", PyVal.list [PyVal.str "string", PyVal.str "null"])]) = Except.ok "s" ∧
    sql_shorthand (PyVal.dict
      [("type", PyVal.list [PyVal.str "integer", PyVal.str "boolean"])]) =
      Except.ok "bi" := by
  refine ⟨?_, rfl, rfl⟩
  have hgt : get_type (PyVal.dict [("type", PyVal.list (ts.map PyVal.str))]) =
      Except.ok (PyVal.list (ts.map PyVal.str)) :=
    get_type_of_strList _ ts (by simp) hne
  have hcat := concatShorthands_ok (sortStrs ts)
    (fun s hs => htable s ((mem_sortStrs s ts).mp hs))
  simp [sql_shorthand, hgt, type_shorthand, pySortedStrs, strElems_map, hcat]

theorem claim_C5_shorthand_sorted_witness :
    sql_shorthand (PyVal.dict
      [("type", PyVal.list (["integer", "boolean"].map PyVal.str))]) =
      Except.ok (strJoin ((sortStrs ["integer", "boolean"]).map codeOf)) :=
  (claim_C5_shorthand_sorted ["integer", "boolean"] (by decide) (by decide)).1

theorem claim_C4_to_sql_arity_witness :
    to_sql (PyVal.dict [("type", PyVal.list [PyVal.str "string", PyVal.str "integer"])]) =
      Except.ok "text NOT NULL" :=
  (claim_C4_to_sql_arity [("type", PyVal.list [PyVal.str "string", PyVal.str "integer"])]
    ["string", "integer"] (by rfl) (by decide)).2 (by decide) (by decide)

/-- C9: for every schema dict whose `type` field conforms to the data model
(absent, falsy, a string, or a list), `get_type` returns a non-empty list;
and when `type` is absent or falsy it returns exactly `["object"]`. -/
theorem claim_C9_get_type (es : List (String × PyVal)) (hok : typeFieldOk es = true) :
    (∃ ts, get_type (PyVal.dict es) = Except.ok (PyVal.list ts) ∧ ts ≠ []) ∧
    ((lookupKey es "type" = Option.none ∨
      (∃ v, lookupKey es "type" = Option.some v ∧ pyTruthy v = false)) →
      get_type (PyVal.dict es) = Except.ok (PyVal.list [PyVal.str "object"])) := by
  refine ⟨get_type_wf es hok, ?_⟩
  intro h
  rcases h with hnone | ⟨v, hv, htr⟩
  · simp [get_type, pyGet, hnone, pyTruthy]
  · simp [get_type, pyGet, hv, htr]

theorem claim_C9_get_type_witness :
    (∃ ts, get_type (PyVal.dict [("type", PyVal.list [])]) =
      Except.ok (PyVal.list ts) ∧ ts ≠ []) ∧
    ((lookupKey [("type", PyVal.list [])] "type" = Option.none ∨
      (∃ v, lookupKey [("type", PyVal.list [])] "type" = Option.some v ∧
        pyTruthy v = false)) →
      get_type (PyVal.dict [("type", PyVal.list [])]) =
        Except.ok (PyVal.list [PyVal.str "object"])) :=
  claim_C9_get_type [("type", PyVal.list [])] (by rfl)

/-- C7: for every schema dict whose `type` field conforms to the data model,
`make_nullable` succeeds, is idempotent (applying it to its own result
returns that result unchanged), and its result satisfies `is_nullable`.  The
embedding is pure, so the argument itself is never mutated by construction
(the source enforces this with a `deepcopy` before the type-list update). -/
theorem claim_C7_make_nullable (es : List (String × PyVal))
    (hok : typeFieldOk es = true) :
    ∃ M, make_nullable (PyVal.dict es) = Except.ok M ∧
      make_nullable M = Except.ok M ∧ is_nullable M = Except.ok true := by
  obtain ⟨ts, hgt, hne⟩ := get_type_wf es hok
  by_cases hnb : ts.any (fun v => pyEqStr v "null") = true
  · refine ⟨PyVal.dict es, ?_, ?_, ?_⟩ <;>
      simp [make_nullable, is_nullable, hgt, pyContains, hnb]
  · rw [Bool.not_eq_true] at hnb
    have hM : make_nullable (PyVal.dict es) =
        Except.ok (PyVal.dict (setKey es "type" (PyVal.list (ts ++ [PyVal.str "null"])))) := by
      simp [make_nullable, hgt, pyContains, hnb, pyAdd, pySetItem]
    have hgt2 : get_type (PyVal.dict (setKey es "type"
        (PyVal.list (ts ++ [PyVal.str "null"])))) =
        Except.ok (PyVal.list (ts ++ [PyVal.str "null"])) := by
      simp [get_type, pyGet, lookup_setKey_self, pyTruthy]
    have hcn : (ts ++ [PyVal.str "null"]).any (fun v => pyEqStr v "null") = true := by
      simp [pyEqStr]
    refine ⟨_, hM, ?_, ?_⟩
    · simp [make_nullable, hgt2, pyContains, hcn]
    · simp [is_nullable, hgt2, pyContains, hcn]

theorem claim_C7_make_nullable_witness :
    ∃ M, make_nullable (PyVal.dict [("type", PyVal.str "string")]) = Except.ok M ∧
      make_nullable M = Except.ok M ∧ is_nullable M = Except.ok true :=
  claim_C7_make_nullable [("type", PyVal.str "string")] (by rfl)

theorem claim_C3_validation_resilience_witness :
    validation_errors check_schema_stub (PyVal.dict [("$ref", PyVal.str "bad")]) =
      Except.ok ["Invalid format for `$ref`: \"bad\""] ∧
    "Invalid format for `$ref`: \"bad\"" ∈ ["Invalid format for `$ref`: \"bad\""] := by
  constructor
  · rfl
  · exact claim_C3_validation_resilience.2.2.2 check_schema_stub
      (PyVal.dict [("$ref", PyVal.str "bad")]) "Invalid format for `$ref`: \"bad\""
      (by rfl) ["Invalid format for `$ref`: \"bad\""] (by rfl)
